import Mathlib

/-!
Verification of the Clipstream AI backend core logic.

This file is a shallow embedding of the moment-selection, subtitle-grouping,
face-frame-selection and orchestration logic of
`clipstream-ai-backend/main.py`, together with proofs of the specified
properties.  Python floats are modelled as rationals; Python string
operations are modelled character-wise; external collaborators (face
tracker, transcoder, LLM, `json.loads`, storage, webhook delivery) enter as
oracle parameters exactly at the boundary where the Python code consumes
their results.
-/

namespace ClipstreamAI

/-! The data model and operations, embedded from the source. -/

/-- A candidate moment with start and end times in seconds into the source video, as produced by the LLM collaborator or adjusted by the trailer composer (see `main.py`, `create_trailer`). -/
structure Moment where
  start : ℚ
  «end» : ℚ
deriving DecidableEq

/-- Length of a moment in seconds: `end - start`. -/
def Moment.duration (m : Moment) : ℚ := m.«end» - m.start

/-- Python `sorted(clip_moments, key=lambda m: m["start"])` (`main.py` line 464): a stable ascending sort by `start`.  A stable sort by a total preorder is unique, so insertion sort produces exactly what Python produces. -/
def sortMomentsByStart (ms : List Moment) : List Moment :=
  ms.insertionSort (fun a b => a.start ≤ b.start)

/-- The moment-selection loop of `create_trailer` (`main.py` lines 466-515), with loop state `(selected_moments, total_content_duration)`.  Constants are hardcoded as in the source: content budget 55, minimum moment 3, trim threshold 18, selection cap 6. -/
def trailerSelect : List Moment → List Moment → ℚ → List Moment × ℚ
  | [], sel, total => (sel, total)
  | m :: rest, sel, total =>
    if 55 ≤ total then (sel, total)
    else
      if m.duration < 3 then
        trailerSelect rest sel total
      else
        let adj : Moment := if m.duration ≤ 18 then m else ⟨m.start, m.start + 18⟩
        let fd : ℚ := if m.duration ≤ 18 then m.duration else 18
        if total + fd ≤ 55 then
          let sel' := sel ++ [adj]
          if 6 ≤ sel'.length then (sel', total + fd)
          else trailerSelect rest sel' (total + fd)
        else
          let rb : ℚ := 55 - total
          if 3 ≤ rb ∧ rb < fd then
            (sel ++ [⟨adj.start, adj.start + rb⟩], total + rb)
          else trailerSelect rest sel total

/-- The planning phase of `create_trailer` (`main.py` lines 457-520): sort candidates chronologically, run the selection loop, and raise "No suitable moments found for trailer" when nothing survives. -/
def create_trailer_plan (clip_moments : List Moment) :
    Except String (List Moment × ℚ) :=
  let r := trailerSelect (sortMomentsByStart clip_moments) [] 0
  if r.1.isEmpty then .error "No suitable moments found for trailer" else .ok r

/-- Sum of the (possibly trimmed) durations of a list of moments. -/
def sumDur (l : List Moment) : ℚ := (l.map Moment.duration).sum

/-- A processed trailer-segment record (`main.py` lines 532-539). -/
structure ProcessedClip where
  start : ℚ
  «end» : ℚ
  index : Nat
  duration : ℚ
deriving DecidableEq

/-- The per-moment processing loop of `create_trailer` (`main.py` lines 522-539).  `segmentOk idx m` abstracts the external outcome of `process_trailer_segment`: `false` models the face-tracking collaborator failing or its tracking output files missing, in which case that function returns `None` and the moment is skipped. -/
def collectProcessedClips (segmentOk : Nat → Moment → Bool)
    (sel : List Moment) : List ProcessedClip :=
  sel.enum.filterMap (fun p =>
    if segmentOk p.1 p.2 then
      some ⟨p.2.start, p.2.«end», p.1, p.2.«end» - p.2.start⟩
    else none)

/-- Behaviour of `create_trailer` (`main.py` lines 451-547) up to composition: plan the moments, process each selected segment (skipping failures), and raise "No valid clips generated for trailer" only when no segment survives.  The surviving clips are what `combine_clips_with_narrative_flow` concatenates into the trailer. -/
def create_trailer_result (segmentOk : Nat → Moment → Bool)
    (clip_moments : List Moment) : Except String (List ProcessedClip) :=
  match create_trailer_plan clip_moments with
  | .error e => .error e
  | .ok (sel, _) =>
    let pcs := collectProcessedClips segmentOk sel
    if pcs.isEmpty then .error "No valid clips generated for trailer"
    else .ok pcs

/-- ASCII whitespace stripped by Python `str.strip`. -/
def isPySpace (c : Char) : Bool :=
  c = ' ' || c = '\t' || c = '\n' || c = '\r' || c = '\x0b' || c = '\x0c'

/-- Python `str.strip`: drop leading and trailing whitespace. -/
def py_strip (s : String) : String :=
  ⟨((s.data.dropWhile isPySpace).reverse.dropWhile isPySpace).reverse⟩

/-- A word-level transcript segment as consumed by `create_subtitles_with_ffmpeg`: a dict with `word`, optional `start` and optional `end` (Python `segment.get` may return `None`). -/
structure WordSeg where
  word : String
  start : Option ℚ
  «end» : Option ℚ
deriving DecidableEq

/-- The filter predicate of `main.py` lines 327-331: keep a segment when both timestamps are present, `end > clip_start` and `start < clip_end`. -/
def segKeep (clip_start clip_end : ℚ) (s : WordSeg) : Bool :=
  match s.start, s.«end» with
  | some st, some en => decide (clip_start < en) && decide (st < clip_end)
  | _, _ => false

/-- `clip_segments` (`main.py` lines 327-331): transcript segments overlapping the clip window. -/
def clipSegments (segs : List WordSeg) (clip_start clip_end : ℚ) : List WordSeg :=
  segs.filter (segKeep clip_start clip_end)

/-- Clamped clip-relative start time: `max(0.0, seg_start - clip_start)` (`main.py` line 350). -/
def startRel (clip_start st : ℚ) : ℚ := max 0 (st - clip_start)

/-- Clamped clip-relative end time: `max(0.0, seg_end - clip_start)` (`main.py` line 351). -/
def endRel (clip_start en : ℚ) : ℚ := max 0 (en - clip_start)

/-- One subtitle entry of start time, end time and text (`main.py` line 334); the words are kept as a list, the burned-in text being their space-join. -/
structure SubLine where
  start : ℚ
  «end» : ℚ
  words : List String
deriving DecidableEq

/-- The text of a subtitle entry: the space-join of its words (`main.py` line 366). -/
def SubLine.text (l : SubLine) : String := String.intercalate " " l.words

/-- The word-grouping loop of `create_subtitles_with_ffmpeg` (`main.py` lines 334-378), with state of current line and finished subtitles: skip empty words and words with `end_rel <= 0`; start a new line on the first word or when the current line holds `max_words` words; otherwise extend the current line; flush the final partial line. -/
def groupLoop (clip_start : ℚ) (max_words : Nat) :
    List WordSeg → Option SubLine → List SubLine → List SubLine
  | [], none, subtitles => subtitles
  | [], some cur, subtitles => subtitles ++ [cur]
  | seg :: rest, cur, subtitles =>
    match seg.start, seg.«end» with
    | some st, some en =>
      if py_strip seg.word = "" then groupLoop clip_start max_words rest cur subtitles
      else if endRel clip_start en ≤ 0 then groupLoop clip_start max_words rest cur subtitles
      else
        match cur with
        | none =>
          groupLoop clip_start max_words rest
            (some ⟨startRel clip_start st, endRel clip_start en, [py_strip seg.word]⟩) subtitles
        | some c =>
          if max_words ≤ c.words.length then
            groupLoop clip_start max_words rest
              (some ⟨startRel clip_start st, endRel clip_start en, [py_strip seg.word]⟩)
              (subtitles ++ [c])
          else
            groupLoop clip_start max_words rest
              (some ⟨c.start, endRel clip_start en, c.words ++ [py_strip seg.word]⟩) subtitles
    | _, _ => groupLoop clip_start max_words rest cur subtitles

/-- The subtitle-building portion of `create_subtitles_with_ffmpeg` (`main.py` lines 295-378): filter to the clip window, then group words into subtitle lines.  (The ASS styling and the ffmpeg burn-in consume this list unchanged.) -/
def create_subtitles_with_ffmpeg (transcript_segments : List WordSeg)
    (clip_start clip_end : ℚ) (max_words : Nat) : List SubLine :=
  groupLoop clip_start max_words (clipSegments transcript_segments clip_start clip_end) none []

/-- A retained word: stripped text plus the original absolute timestamps. -/
structure Tok where
  w : String
  st : ℚ
  en : ℚ
deriving DecidableEq

/-- The per-word retention test inside the loop (`main.py` lines 340-355): `none` when the stripped word is empty or `end_rel <= 0`, otherwise the retained word. -/
def segTok (clip_start : ℚ) (seg : WordSeg) : Option Tok :=
  match seg.start, seg.«end» with
  | some st, some en =>
    if py_strip seg.word = "" then none
    else if endRel clip_start en ≤ 0 then none
    else some ⟨py_strip seg.word, st, en⟩
  | _, _ => none

/-- Retained words of a segment list, in order. -/
def toks (clip_start : ℚ) (l : List WordSeg) : List Tok := l.filterMap (segTok clip_start)

/-- Retained words of the grouping run: filtered to the clip window, non-empty text, positive clamped end. -/
def retainedToks (segs : List WordSeg) (clip_start clip_end : ℚ) : List Tok :=
  toks clip_start (clipSegments segs clip_start clip_end)

/-- Texts of the retained words, in input order. -/
def retainedWords (segs : List WordSeg) (clip_start clip_end : ℚ) : List String :=
  (retainedToks segs clip_start clip_end).map Tok.w

/-- Greedy grouping mirroring the loop: continue the partial group `p` until it holds `max_words` words, then flush and start a new group. -/
def chunksWith (max_words : Nat) (p : List Tok) : List Tok → List (List Tok)
  | [] => [p]
  | t :: ts =>
    if max_words ≤ p.length then p :: chunksWith max_words [t] ts
    else chunksWith max_words (p ++ [t]) ts

/-- Greedy left-to-right grouping of the retained words into lines of at most `max_words` (the first word opens the first group). -/
def chunks (max_words : Nat) : List Tok → List (List Tok)
  | [] => []
  | t :: ts => chunksWith max_words [t] ts

/-- Start timestamp of the first word of a group (0 for an empty group). -/
def headSt (g : List Tok) : ℚ := ((g.head?).map Tok.st).getD 0

/-- End timestamp of the last word of a group (0 for an empty group). -/
def lastEn (g : List Tok) : ℚ := ((g.getLast?).map Tok.en).getD 0

/-- The subtitle entry a finished group produces: `current_start` is the clamped relative start of its first word, `current_end` the clamped relative end of its last word (`main.py` lines 358-373). -/
def renderLine (clip_start : ℚ) (g : List Tok) : SubLine :=
  ⟨startRel clip_start (headSt g), endRel clip_start (lastEn g), g.map Tok.w⟩

/-- Subtitle lines are chronologically ordered and pairwise non-overlapping: viewing each line as a half-open interval from its start to its end, every earlier line ends no later than every later line starts. -/
def linesOrderedDisjoint (lines : List SubLine) : Prop :=
  List.Pairwise (fun l1 l2 => l1.«end» ≤ l2.start) lines

/-- A face track: the global frame numbers it covers (`main.py` line 182).  The parallel engagement-score array is passed separately, as in the source; the position fields of the track do not influence the frame decision and are omitted. -/
structure Track where
  frames : List Nat
deriving DecidableEq

/-- A per-frame face observation: the track it came from and its smoothed engagement score (`main.py` lines 191-197; the position fields do not influence the decision). -/
structure FaceObs where
  track : Nat
  score : ℚ
deriving DecidableEq

/-- The windowed average of `main.py` lines 183-188: mean of the score slice from `max(fidx-30, 0)` to `min(fidx+30, len(score_array))`, and 0 for an empty slice. -/
def smoothedScore (score_array : List ℚ) (fidx : Nat) : ℚ :=
  let slice_start := fidx - 30
  let slice_end := min (fidx + 30) score_array.length
  let score_slice := (score_array.drop slice_start).take (slice_end - slice_start)
  if 0 < score_slice.length then score_slice.sum / score_slice.length else 0

/-- Face observations registered for output frame `f` (`main.py` lines 177-197), in track-enumeration order.  The score array at index `tidx` is parallel to the track at index `tidx`, paired by `zip` as the source pairs them by index. -/
def facesAt (tracks : List Track) (scores : List (List ℚ)) (f : Nat) : List FaceObs :=
  ((tracks.zip scores).enum).flatMap (fun p =>
    (p.2.1.frames.enum).filterMap (fun q =>
      if q.2 = f then some ⟨p.1, smoothedScore p.2.2 q.1⟩ else none))

/-- One step of the Python `max` by score key: a later candidate replaces the current best only when strictly greater, so the first maximal element wins ties. -/
def pickBest (best o : FaceObs) : FaceObs := if best.score < o.score then o else best

/-- The best current face, or `none` when no face is registered (`main.py` lines 215-216). -/
def bestFace (current_faces : List FaceObs) : Option FaceObs :=
  match current_faces with
  | [] => none
  | x :: xs => some (xs.foldl pickBest x)

/-- The per-frame processing mode, crop or resize (`main.py` line 232). -/
inductive Mode where
  | crop
  | resize
deriving DecidableEq

/-- The per-frame decision of `create_vertical_video` (`main.py` lines 212-232): take the best-scoring face, drop it when its score is negative, and crop exactly when a face remains. -/
def frameDecision (tracks : List Track) (scores : List (List ℚ)) (f : Nat) :
    Mode × Option FaceObs :=
  let best := bestFace (facesAt tracks scores f)
  let face : Option FaceObs :=
    match best with
    | some b => if b.score < 0 then none else some b
    | none => none
  (if face.isSome then Mode.crop else Mode.resize, face)

/-- Python `str.startswith`. -/
def py_startswith (s t : String) : Bool := decide (s.data.take t.data.length = t.data)

/-- Python `str.endswith`. -/
def py_endswith (s t : String) : Bool :=
  decide (s.data.drop (s.data.length - t.data.length) = t.data)

/-- The response-cleaning steps of `process_video` (`main.py` lines 1275-1279): strip, drop a leading 7-character code-fence marker and a trailing 3-character one, stripping after each. -/
def clean_llm_response (raw : String) : String :=
  let c := py_strip raw
  let c := if py_startswith c "```json" then py_strip ⟨c.data.drop 7⟩ else c
  let c := if py_endswith c "```" then py_strip ⟨c.data.take (c.data.length - 3)⟩ else c
  c

/-- A parsed JSON value, the result type of Python `json.loads`. -/
inductive Json where
  | null
  | bool (b : Bool)
  | num (q : ℚ)
  | str (s : String)
  | arr (l : List Json)
  | obj (kvs : List (String × Json))

/-- Parsing of the cleaned LLM response (`main.py` lines 1283-1294): `jsonLoads` abstracts `json.loads` (returning `none` on a parse error); a failed parse or a non-list result degrades to the empty moment list. -/
def parse_moments (jsonLoads : String → Option Json) (raw : String) : List Json :=
  match jsonLoads (clean_llm_response raw) with
  | some (Json.arr l) => l
  | _ => []

/-- The check that both `start` and `end` occur as keys of the moment (`main.py` line 1336) for a JSON object.  (For non-dict values the Python membership test has other meanings or raises; the orchestrator only receives objects here.) -/
def hasStartEnd : Json → Bool
  | Json.obj kvs =>
      kvs.any (fun kv => decide (kv.1 = "start")) && kvs.any (fun kv => decide (kv.1 = "end"))
  | _ => false

/-- The clip-generation branch of `process_video` (`main.py` lines 1330-1354): process up to the first 3 well-formed moments independently (`clipOk` abstracts whether `process_clip` succeeds), succeed when at least one clip was created, raise "No suitable moments found in video" when the moment list was empty, and otherwise raise "Processing failed - no clips or trailer were generated". -/
def clip_mode_outcome (clip_moments : List Json) (clipOk : Nat → Json → Bool) :
    Except String Unit :=
  let clips_created :=
    ((clip_moments.take 3).enum.filter (fun p => hasStartEnd p.2 && clipOk p.1 p.2)).length
  if 0 < clips_created then .ok ()
  else if clip_moments.isEmpty then .error "No suitable moments found in video"
  else .error "Processing failed - no clips or trailer were generated"

/-- Dictionary lookup on a parsed JSON object. -/
def jsonLookup (kvs : List (String × Json)) (k : String) : Option Json :=
  (kvs.find? (fun kv => decide (kv.1 = k))).map (fun kv => kv.2)

/-- Reading the start and end fields of a moment object as numbers; `none` models the dynamic access raising. -/
def jsonToMoment : Json → Option Moment
  | Json.obj kvs =>
    match jsonLookup kvs "start", jsonLookup kvs "end" with
    | some (Json.num a), some (Json.num b) => some ⟨a, b⟩
    | _, _ => none
  | _ => none

/-- The fallback of `main.py` lines 1303-1322: when trailer identification produced no moments, re-parse the clip-prompt response; a non-empty list is used, anything else raises "No suitable moments found in video for trailer generation". -/
def trailer_fallback (jsonLoads : String → Option Json) (fallback_raw : String) :
    Except String (List Json) :=
  match jsonLoads (clean_llm_response fallback_raw) with
  | some (Json.arr l) =>
      if 0 < l.length then .ok l
      else .error "No suitable moments found in video for trailer generation"
  | _ => .error "No suitable moments found in video for trailer generation"

/-- The trailer-generation branch of `process_video` (`main.py` lines 1299-1329): run the fallback when needed, convert the moment objects, run `create_trailer`, and wrap any failure with the "Trailer generation failed: " message. -/
def trailer_mode_outcome (jsonLoads : String → Option Json) (fallback_raw : String)
    (segmentOk : Nat → Moment → Bool) (clip_moments : List Json) :
    Except String Unit :=
  let withMoments : Except String (List Json) :=
    if clip_moments.isEmpty then trailer_fallback jsonLoads fallback_raw
    else .ok clip_moments
  match withMoments with
  | .error m => .error ("Trailer generation failed: " ++ m)
  | .ok ms =>
    match ms.mapM jsonToMoment with
    | none => .error "Trailer generation failed: 'start'"
    | some moments =>
      match create_trailer_result segmentOk moments with
      | .error m => .error ("Trailer generation failed: " ++ m)
      | .ok _ => .ok ()

/-- The external inputs that determine a processing run once it is past authentication and download: the request mode and the outcomes of the LLM, JSON-parsing, face-tracking and per-clip transcoding collaborators. -/
structure RunInputs where
  generate_trailer : Bool
  llm_response : String
  fallback_response : String
  jsonLoads : String → Option Json
  segmentOk : Nat → Moment → Bool
  clipOk : Nat → Json → Bool

/-- The processing body of `process_video` inside its try block (`main.py` lines 1259-1366), from moment parsing onwards. -/
def process_body (inp : RunInputs) : Except String Unit :=
  let clip_moments := parse_moments inp.jsonLoads inp.llm_response
  if inp.generate_trailer then
    trailer_mode_outcome inp.jsonLoads inp.fallback_response inp.segmentOk clip_moments
  else
    clip_mode_outcome clip_moments inp.clipOk

/-- One invocation of `send_webhook_notification` (`main.py` lines 47-86): the terminal status and the optional error message. -/
structure WebhookCall where
  status : String
  message : Option String
deriving DecidableEq

/-- The webhook calls `process_video` makes for a run that entered processing (`main.py` lines 1360-1384): exactly one success call at the end of the try block, or exactly one error call from the except handler. -/
def run_webhooks (inp : RunInputs) : List WebhookCall :=
  match process_body inp with
  | .ok _ => [⟨"success", none⟩]
  | .error m => [⟨"error", some m⟩]

/-! Helper lemmas for the claim theorems. -/

lemma sumDur_append (l : List Moment) (x : Moment) :
    sumDur (l ++ [x]) = sumDur l + x.duration := by
  simp [sumDur]

lemma trailerSelect_sum : ∀ (l sel : List Moment) (total : ℚ),
    sumDur sel = total → total ≤ 55 →
    sumDur (trailerSelect l sel total).1 = (trailerSelect l sel total).2 ∧
    (trailerSelect l sel total).2 ≤ 55 := by
  intro l
  induction l with
  | nil =>
    intro sel total h1 h2
    simpa [trailerSelect] using ⟨h1, h2⟩
  | cons m rest ih =>
    intro sel total h1 h2
    simp only [trailerSelect]
    split_ifs with h55 hshort hle18 hbud hcap hrb hbud2 hcap2 hrb2
    · exact ⟨h1, h2⟩
    · exact ih sel total h1 h2
    · refine ⟨?_, ?_⟩ <;> dsimp only
      · rw [sumDur_append, h1]
      · exact hbud
    · exact ih _ _ (by rw [sumDur_append, h1]) hbud
    · refine ⟨?_, ?_⟩ <;> dsimp only
      · rw [sumDur_append, h1]; simp [Moment.duration]
      · linarith
    · exact ih sel total h1 h2
    · refine ⟨?_, ?_⟩ <;> dsimp only
      · rw [sumDur_append, h1]; simp [Moment.duration]
      · exact hbud2
    · exact ih _ _ (by rw [sumDur_append, h1]; simp [Moment.duration]) hbud2
    · refine ⟨?_, ?_⟩ <;> dsimp only
      · rw [sumDur_append, h1]; simp [Moment.duration]
      · linarith
    · exact ih sel total h1 h2

lemma trailerSelect_trace : ∀ (l sel : List Moment) (total : ℚ),
    ∀ m' ∈ (trailerSelect l sel total).1,
      m' ∈ sel ∨ ∃ m ∈ l, m.start = m'.start ∧ m'.«end» ≤ m.«end» ∧
        3 ≤ m.duration ∧ 3 ≤ m'.duration ∧ m'.duration ≤ 18 ∧
        (18 < m.duration → m'.duration < m.duration) := by
  intro l
  induction l with
  | nil =>
    intro sel total m' hm'
    simp only [trailerSelect] at hm'
    exact Or.inl hm'
  | cons m rest ih =>
    intro sel total m' hm'
    simp only [trailerSelect] at hm'
    split_ifs at hm' with h55 hshort hle18 hbud hcap hrb hbud2 hcap2 hrb2
    · exact Or.inl hm'
    · rcases ih sel total m' hm' with h | ⟨x, hx, hprop⟩
      · exact Or.inl h
      · exact Or.inr ⟨x, List.mem_cons_of_mem _ hx, hprop⟩
    · dsimp only at hm'
      rcases List.mem_append.1 hm' with h | h
      · exact Or.inl h
      · simp only [List.mem_singleton] at h
        subst h
        refine Or.inr ⟨m', List.mem_cons_self _ _, rfl, le_refl _, by linarith, by linarith,
          hle18, fun hgt => absurd hgt (not_lt.2 hle18)⟩
    · rcases ih _ _ m' hm' with h | ⟨x, hx, hprop⟩
      · rcases List.mem_append.1 h with h' | h'
        · exact Or.inl h'
        · simp only [List.mem_singleton] at h'
          subst h'
          refine Or.inr ⟨m', List.mem_cons_self _ _, rfl, le_refl _, by linarith, by linarith,
            hle18, fun hgt => absurd hgt (not_lt.2 hle18)⟩
      · exact Or.inr ⟨x, List.mem_cons_of_mem _ hx, hprop⟩
    · dsimp only at hm'
      rcases List.mem_append.1 hm' with h | h
      · exact Or.inl h
      · simp only [List.mem_singleton] at h
        subst h
        refine Or.inr ⟨m, List.mem_cons_self _ _, rfl, ?_, by linarith, ?_, ?_, ?_⟩
        · simp only [Moment.duration] at *; linarith [hrb.2]
        · simp only [Moment.duration] at *; linarith [hrb.1]
        · simp only [Moment.duration] at *; linarith [hrb.2]
        · intro _; simp only [Moment.duration] at *; linarith [hrb.2]
    · rcases ih sel total m' hm' with h | ⟨x, hx, hprop⟩
      · exact Or.inl h
      · exact Or.inr ⟨x, List.mem_cons_of_mem _ hx, hprop⟩
    · dsimp only at hm'
      rcases List.mem_append.1 hm' with h | h
      · exact Or.inl h
      · simp only [List.mem_singleton] at h
        subst h
        refine Or.inr ⟨m, List.mem_cons_self _ _, rfl, ?_, by linarith, ?_, ?_, ?_⟩
        · simp only [Moment.duration] at *; linarith
        · simp only [Moment.duration] at *; linarith
        · simp only [Moment.duration] at *; linarith
        · intro _; simp only [Moment.duration] at *; linarith
    · rcases ih _ _ m' hm' with h | ⟨x, hx, hprop⟩
      · rcases List.mem_append.1 h with h' | h'
        · exact Or.inl h'
        · simp only [List.mem_singleton] at h'
          subst h'
          refine Or.inr ⟨m, List.mem_cons_self _ _, rfl, ?_, by linarith, ?_, ?_, ?_⟩
          · simp only [Moment.duration] at *; linarith
          · simp only [Moment.duration] at *; linarith
          · simp only [Moment.duration] at *; linarith
          · intro _; simp only [Moment.duration] at *; linarith
      · exact Or.inr ⟨x, List.mem_cons_of_mem _ hx, hprop⟩
    · dsimp only at hm'
      rcases List.mem_append.1 hm' with h | h
      · exact Or.inl h
      · simp only [List.mem_singleton] at h
        subst h
        refine Or.inr ⟨m, List.mem_cons_self _ _, rfl, ?_, by linarith, ?_, ?_, ?_⟩
        · simp only [Moment.duration] at *; linarith [hrb2.1, hrb2.2]
        · simp only [Moment.duration] at *; linarith [hrb2.1]
        · simp only [Moment.duration] at *; linarith [hrb2.2]
        · intro _; simp only [Moment.duration] at *; linarith [hrb2.2]
    · rcases ih sel total m' hm' with h | ⟨x, hx, hprop⟩
      · exact Or.inl h
      · exact Or.inr ⟨x, List.mem_cons_of_mem _ hx, hprop⟩

lemma trailerSelect_count : ∀ (l sel : List Moment) (total : ℚ),
    sel.length ≤ 5 → (trailerSelect l sel total).1.length ≤ 6 := by
  intro l
  induction l with
  | nil =>
    intro sel total h
    simpa [trailerSelect] using by omega
  | cons m rest ih =>
    intro sel total h
    simp only [trailerSelect]
    split_ifs with h55 hshort hle18 hbud hcap hrb hbud2 hcap2 hrb2
    · dsimp only; omega
    · exact ih sel total h
    · simp only [List.length_append, List.length_singleton]; omega
    · refine ih _ _ ?_
      simp only [List.length_append, List.length_singleton] at hcap ⊢; omega
    · simp only [List.length_append, List.length_singleton]; omega
    · exact ih sel total h
    · simp only [List.length_append, List.length_singleton]; omega
    · refine ih _ _ ?_
      simp only [List.length_append, List.length_singleton] at hcap2 ⊢; omega
    · simp only [List.length_append, List.length_singleton]; omega
    · exact ih sel total h

lemma renderLine_single (cs : ℚ) (t : Tok) :
    renderLine cs [t] = ⟨startRel cs t.st, endRel cs t.en, [t.w]⟩ := rfl

lemma renderLine_words (cs : ℚ) (p : List Tok) :
    (renderLine cs p).words = p.map Tok.w := rfl

lemma renderLine_append (cs : ℚ) (p : List Tok) (t : Tok) (hp : p ≠ []) :
    renderLine cs (p ++ [t]) =
      ⟨(renderLine cs p).start, endRel cs t.en, p.map Tok.w ++ [t.w]⟩ := by
  simp [renderLine, headSt, lastEn, List.head?_append_of_ne_nil _ hp, List.getLast?_concat]

lemma groupLoop_some_eq (cs : ℚ) (mw : Nat) :
    ∀ (l : List WordSeg) (p : List Tok) (subtitles : List SubLine), p ≠ [] →
    groupLoop cs mw l (some (renderLine cs p)) subtitles =
      subtitles ++ (chunksWith mw p (toks cs l)).map (renderLine cs) := by
  intro l
  induction l with
  | nil =>
    intro p subtitles hp
    simp [groupLoop, toks, chunksWith]
  | cons seg rest ih =>
    intro p subtitles hp
    obtain ⟨w, os, oe⟩ := seg
    cases os with
    | none =>
      cases oe with
      | none =>
        simp only [groupLoop]
        rw [ih _ _ hp]
        simp [toks, segTok]
      | some en =>
        simp only [groupLoop]
        rw [ih _ _ hp]
        simp [toks, segTok]
    | some st =>
      cases oe with
      | none =>
        simp only [groupLoop]
        rw [ih _ _ hp]
        simp [toks, segTok]
      | some en =>
        by_cases hw : py_strip w = ""
        · simp only [groupLoop]
          rw [if_pos hw, ih _ _ hp]
          simp [toks, segTok, hw]
        · by_cases hend : endRel cs en ≤ 0
          · simp only [groupLoop]
            rw [if_neg hw, if_pos hend, ih _ _ hp]
            simp [toks, segTok, hw, hend]
          · have htok : toks cs (⟨w, some st, some en⟩ :: rest) =
                ⟨py_strip w, st, en⟩ :: toks cs rest := by
              simp [toks, segTok, hw, hend]
            by_cases hcap : mw ≤ p.length
            · have hcap' : mw ≤ (renderLine cs p).words.length := by
                simpa [renderLine_words] using hcap
              simp only [groupLoop]
              rw [if_neg hw, if_neg hend, if_pos hcap']
              rw [show (⟨startRel cs st, endRel cs en, [py_strip w]⟩ : SubLine) =
                    renderLine cs [⟨py_strip w, st, en⟩] from rfl]
              rw [ih [⟨py_strip w, st, en⟩] (subtitles ++ [renderLine cs p])
                (List.cons_ne_nil _ _)]
              rw [htok]
              simp only [chunksWith, if_pos hcap, List.map_cons]
              simp [List.append_assoc]
            · have hcap' : ¬ mw ≤ (renderLine cs p).words.length := by
                simpa [renderLine_words] using hcap
              simp only [groupLoop]
              rw [if_neg hw, if_neg hend, if_neg hcap']
              rw [show (⟨(renderLine cs p).start, endRel cs en,
                    (renderLine cs p).words ++ [py_strip w]⟩ : SubLine) =
                  renderLine cs (p ++ [⟨py_strip w, st, en⟩]) from by
                rw [renderLine_append cs p _ hp]; rfl]
              have step := ih (p ++ [(⟨py_strip w, st, en⟩ : Tok)]) subtitles (by simp)
              rw [step, htok]
              simp only [chunksWith, if_neg hcap]

lemma groupLoop_none_eq (cs : ℚ) (mw : Nat) :
    ∀ (l : List WordSeg) (subtitles : List SubLine),
    groupLoop cs mw l none subtitles =
      subtitles ++ (chunks mw (toks cs l)).map (renderLine cs) := by
  intro l
  induction l with
  | nil =>
    intro subtitles
    simp [groupLoop, toks, chunks]
  | cons seg rest ih =>
    intro subtitles
    obtain ⟨w, os, oe⟩ := seg
    cases os with
    | none =>
      cases oe with
      | none =>
        simp only [groupLoop]; rw [ih]; simp [toks, segTok]
      | some en =>
        simp only [groupLoop]; rw [ih]; simp [toks, segTok]
    | some st =>
      cases oe with
      | none =>
        simp only [groupLoop]; rw [ih]; simp [toks, segTok]
      | some en =>
        by_cases hw : py_strip w = ""
        · simp only [groupLoop]
          rw [if_pos hw, ih]
          simp [toks, segTok, hw]
        · by_cases hend : endRel cs en ≤ 0
          · simp only [groupLoop]
            rw [if_neg hw, if_pos hend, ih]
            simp [toks, segTok, hw, hend]
          · have htok : toks cs (⟨w, some st, some en⟩ :: rest) =
                ⟨py_strip w, st, en⟩ :: toks cs rest := by
              simp [toks, segTok, hw, hend]
            simp only [groupLoop]
            rw [if_neg hw, if_neg hend]
            rw [show (⟨startRel cs st, endRel cs en, [py_strip w]⟩ : SubLine) =
                  renderLine cs [⟨py_strip w, st, en⟩] from rfl]
            rw [groupLoop_some_eq cs mw rest [⟨py_strip w, st, en⟩] subtitles (by simp)]
            rw [htok]
            simp [chunks]

lemma create_subtitles_eq (segs : List WordSeg) (cs ce : ℚ) (mw : Nat) :
    create_subtitles_with_ffmpeg segs cs ce mw =
      (chunks mw (retainedToks segs cs ce)).map (renderLine cs) := by
  unfold create_subtitles_with_ffmpeg retainedToks
  rw [groupLoop_none_eq]
  simp

lemma chunksWith_flatten (mw : Nat) : ∀ (l p : List Tok),
    (chunksWith mw p l).flatten = p ++ l := by
  intro l
  induction l with
  | nil => intro p; simp [chunksWith]
  | cons t ts ih =>
    intro p
    simp only [chunksWith]
    split_ifs with h
    · simp [ih]
    · simp [ih]

lemma chunks_flatten (mw : Nat) (l : List Tok) : (chunks mw l).flatten = l := by
  cases l with
  | nil => simp [chunks]
  | cons t ts => simp [chunks, chunksWith_flatten]

lemma chunksWith_ne_nil (mw : Nat) : ∀ (l p : List Tok), p ≠ [] →
    ∀ g ∈ chunksWith mw p l, g ≠ [] := by
  intro l
  induction l with
  | nil => intro p hp g hg; simp only [chunksWith, List.mem_singleton] at hg; rwa [hg]
  | cons t ts ih =>
    intro p hp g hg
    simp only [chunksWith] at hg
    split_ifs at hg with h
    · rcases List.mem_cons.1 hg with h' | h'
      · rwa [h']
      · exact ih [t] (List.cons_ne_nil _ _) g h'
    · exact ih (p ++ [t]) (by simp) g hg

lemma chunks_ne_nil (mw : Nat) (l : List Tok) : ∀ g ∈ chunks mw l, g ≠ [] := by
  cases l with
  | nil => simp [chunks]
  | cons t ts => exact chunksWith_ne_nil mw ts [t] (List.cons_ne_nil _ _)

lemma chunksWith_length_le (mw : Nat) (hmw : 1 ≤ mw) : ∀ (l p : List Tok),
    p.length ≤ mw → ∀ g ∈ chunksWith mw p l, g.length ≤ mw := by
  intro l
  induction l with
  | nil => intro p hp g hg; simp only [chunksWith, List.mem_singleton] at hg; rw [hg]; exact hp
  | cons t ts ih =>
    intro p hp g hg
    simp only [chunksWith] at hg
    split_ifs at hg with h
    · rcases List.mem_cons.1 hg with h' | h'
      · rw [h']; exact hp
      · exact ih [t] (by simpa using hmw) g h'
    · refine ih (p ++ [t]) ?_ g hg
      simp only [List.length_append, List.length_singleton]
      omega

lemma chunks_length_le (mw : Nat) (hmw : 1 ≤ mw) (l : List Tok) :
    ∀ g ∈ chunks mw l, g.length ≤ mw := by
  cases l with
  | nil => simp [chunks]
  | cons t ts => exact chunksWith_length_le mw hmw ts [t] (by simpa using hmw)

lemma headSt_le_lastEn : ∀ (g : List Tok), g ≠ [] →
    List.Chain' (fun a b : Tok => a.en ≤ b.st) g → (∀ t ∈ g, t.st ≤ t.en) →
    headSt g ≤ lastEn g := by
  intro g
  induction g with
  | nil => intro h; exact absurd rfl h
  | cons t g ih =>
    intro _ hchain hwf
    cases g with
    | nil =>
      simp only [headSt, lastEn, List.head?_cons, List.getLast?_singleton, Option.map_some,
        Option.getD_some]
      exact hwf t (by simp)
    | cons t' g' =>
      have h1 : t.st ≤ t.en := hwf t (by simp)
      have h2 : t.en ≤ t'.st := (List.chain'_cons.1 hchain).1
      have h3 : headSt (t' :: g') ≤ lastEn (t' :: g') :=
        ih (List.cons_ne_nil _ _) (List.chain'_cons.1 hchain).2
          (fun x hx => hwf x (List.mem_cons_of_mem _ hx))
      have h4 : headSt (t' :: g') = t'.st := by simp [headSt]
      have h5 : lastEn (t :: t' :: g') = lastEn (t' :: g') := by
        simp [lastEn, List.getLast?_cons_cons]
      have h6 : headSt (t :: t' :: g') = t.st := by simp [headSt]
      rw [h5, h6]
      linarith

lemma chain_pairwise_lines : ∀ (L : List SubLine), (∀ l ∈ L, l.start ≤ l.«end») →
    List.Chain' (fun a b : SubLine => a.«end» ≤ b.start) L →
    List.Pairwise (fun a b : SubLine => a.«end» ≤ b.start) L := by
  intro L
  induction L with
  | nil => intro _ _; exact List.Pairwise.nil
  | cons x L ih =>
    intro hintra hchain
    cases L with
    | nil => simp
    | cons y L' =>
      obtain ⟨hxy, hrest⟩ := List.chain'_cons.1 hchain
      have hpw : List.Pairwise (fun a b : SubLine => a.«end» ≤ b.start) (y :: L') :=
        ih (fun l hl => hintra l (List.mem_cons_of_mem _ hl)) hrest
      refine List.pairwise_cons.2 ⟨?_, hpw⟩
      intro z hz
      rcases List.mem_cons.1 hz with rfl | hz'
      · exact hxy
      · have hyz : y.«end» ≤ z.start := (List.pairwise_cons.1 hpw).1 z hz'
        have hy : y.start ≤ y.«end» := hintra y (by simp)
        linarith

lemma chain_across_render (cs : ℚ) : ∀ (GS : List (List Tok)),
    (∀ g ∈ GS, g ≠ []) →
    List.Chain' (fun g g' => ∀ x ∈ g.getLast?, ∀ y ∈ List.head? g', x.en ≤ y.st) GS →
    List.Chain' (fun a b : SubLine => a.«end» ≤ b.start) (GS.map (renderLine cs)) := by
  intro GS
  induction GS with
  | nil => intro _ _; simp
  | cons g GS ih =>
    intro hne hchain
    cases GS with
    | nil => simp
    | cons g' GS' =>
      obtain ⟨hrel, hrest⟩ := List.chain'_cons.1 hchain
      rw [List.map_cons, List.map_cons]
      refine List.chain'_cons.2 ⟨?_, ?_⟩
      · have hg : g ≠ [] := hne g (by simp)
        have hg' : g' ≠ [] := hne g' (by simp)
        have hx : g.getLast? = some (g.getLast hg) := List.getLast?_eq_getLast g hg
        have hy : List.head? g' = some (g'.head hg') := List.head?_eq_head hg'
        have hxy : (g.getLast hg).en ≤ (g'.head hg').st :=
          hrel _ (by rw [hx]; rfl) _ (by rw [hy]; rfl)
        have he : lastEn g = (g.getLast hg).en := by simp [lastEn, hx]
        have hs : headSt g' = (g'.head hg').st := by simp [headSt, hy]
        show endRel cs (lastEn g) ≤ startRel cs (headSt g')
        rw [he, hs, endRel, startRel]
        exact max_le_max (le_refl 0) (by linarith)
      · have := ih (fun a ha => hne a (List.mem_cons_of_mem _ ha)) hrest
        simpa using this

lemma pickBest_spec : ∀ (xs : List FaceObs) (x : FaceObs),
    (∃ pre post, x :: xs = pre ++ (xs.foldl pickBest x) :: post ∧
       ∀ o ∈ pre, o.score < (xs.foldl pickBest x).score) ∧
    (∀ o ∈ x :: xs, o.score ≤ (xs.foldl pickBest x).score) := by
  intro xs
  induction xs with
  | nil =>
    intro x
    exact ⟨⟨[], [], rfl, by simp⟩, by simp⟩
  | cons o xs ih =>
    intro x
    rw [List.foldl_cons]
    by_cases hxo : x.score < o.score
    · rw [show pickBest x o = o from by rw [pickBest, if_pos hxo]]
      obtain ⟨⟨pre', post', heq, hlt⟩, hmax⟩ := ih o
      have hor : o.score ≤ (xs.foldl pickBest o).score := hmax o (by simp)
      refine ⟨⟨x :: pre', post', ?_, ?_⟩, ?_⟩
      · rw [List.cons_append, ← heq]
      · intro p hp
        rcases List.mem_cons.1 hp with rfl | hp'
        · linarith
        · exact hlt p hp'
      · intro p hp
        rcases List.mem_cons.1 hp with rfl | hp'
        · linarith
        · exact hmax p hp'
    · rw [show pickBest x o = x from by rw [pickBest, if_neg hxo]]
      obtain ⟨⟨pre', post', heq, hlt⟩, hmax⟩ := ih x
      have hole : o.score ≤ x.score := le_of_not_lt hxo
      have hxle : x.score ≤ (xs.foldl pickBest x).score := hmax x (by simp)
      cases pre' with
      | nil =>
        simp only [List.nil_append, List.cons.injEq] at heq
        obtain ⟨hrx, hpost⟩ := heq
        refine ⟨⟨[], o :: post', ?_, by simp⟩, ?_⟩
        · rw [List.nil_append, ← hrx, List.cons.injEq, List.cons.injEq]
          exact ⟨rfl, rfl, hpost⟩
        · intro p hp
          rcases List.mem_cons.1 hp with rfl | hp'
          · exact hxle
          · rcases List.mem_cons.1 hp' with rfl | hp''
            · linarith
            · exact hmax p (List.mem_cons_of_mem _ hp'')
      | cons a pre'' =>
        rw [List.cons_append, List.cons.injEq] at heq
        obtain ⟨rfl, hxs⟩ := heq
        have hax : x.score < (xs.foldl pickBest x).score := hlt x (by simp)
        refine ⟨⟨x :: o :: pre'', post', ?_, ?_⟩, ?_⟩
        · rw [List.cons_append, List.cons_append]
          exact congrArg (List.cons x) (congrArg (List.cons o) hxs)
        · intro p hp
          rcases List.mem_cons.1 hp with rfl | hp'
          · exact hax
          · rcases List.mem_cons.1 hp' with rfl | hp''
            · linarith
            · exact hlt p (List.mem_cons_of_mem _ hp'')
        · intro p hp
          rcases List.mem_cons.1 hp with rfl | hp'
          · exact hxle
          · rcases List.mem_cons.1 hp' with rfl | hp''
            · linarith
            · exact hmax p (List.mem_cons_of_mem _ hp'')

lemma bestFace_spec (obs : List FaceObs) (b : FaceObs) (h : bestFace obs = some b) :
    b ∈ obs ∧ (∀ o ∈ obs, o.score ≤ b.score) ∧
    ∃ pre post, obs = pre ++ b :: post ∧ ∀ o ∈ pre, o.score < b.score := by
  cases obs with
  | nil => cases h
  | cons x xs =>
    simp only [bestFace, Option.some.injEq] at h
    obtain ⟨⟨pre, post, heq, hlt⟩, hmax⟩ := pickBest_spec xs x
    rw [h] at heq hlt hmax
    refine ⟨?_, hmax, pre, post, heq, hlt⟩
    rw [heq]
    exact List.mem_append.2 (Or.inr (by simp))

lemma smoothedScore_nonneg (s : List ℚ) (hpos : ∀ q ∈ s, 0 ≤ q) (i : Nat) :
    0 ≤ smoothedScore s i := by
  rw [smoothedScore]
  split_ifs with h
  · refine div_nonneg ?_ (by positivity)
    refine List.sum_nonneg ?_
    intro q hq
    exact hpos q (List.mem_of_mem_drop (List.mem_of_mem_take hq))
  · exact le_refl 0

lemma smoothedScore_empty (s : List ℚ) (i : Nat) (h : s.length ≤ i - 30) :
    smoothedScore s i = 0 := by
  rw [smoothedScore]
  have hdrop : s.drop (i - 30) = [] := List.drop_eq_nil_of_le h
  rw [hdrop]
  simp

lemma mem_enumFrom_of_mem : ∀ (l : List Nat) (n f : Nat), f ∈ l →
    ∃ i, (i, f) ∈ l.enumFrom n := by
  intro l
  induction l with
  | nil => intro n f h; cases h
  | cons a l ih =>
    intro n f h
    rcases List.mem_cons.1 h with rfl | h'
    · exact ⟨n, by simp [List.enumFrom]⟩
    · obtain ⟨i, hi⟩ := ih (n + 1) f h'
      exact ⟨i, by simp [List.enumFrom, hi]⟩

lemma facesAt_single (t : Track) (s : List ℚ) (f : Nat) :
    ∀ o ∈ facesAt [t] [s] f, o.track = 0 ∧ ∃ i, o.score = smoothedScore s i := by
  intro o ho
  rw [facesAt] at ho
  simp only [List.zip_cons_cons, List.zip_nil_right, List.enum] at ho
  rw [List.enumFrom] at ho
  simp only [List.enumFrom, List.flatMap_cons, List.flatMap_nil, List.append_nil] at ho
  rcases List.mem_filterMap.1 ho with ⟨q, _, hq⟩
  split_ifs at hq with hf
  simp only [Option.some.injEq] at hq
  rw [← hq]
  exact ⟨rfl, q.1, rfl⟩

lemma facesAt_single_ne_nil (t : Track) (s : List ℚ) (f : Nat) (hf : f ∈ t.frames) :
    facesAt [t] [s] f ≠ [] := by
  rw [facesAt]
  simp only [List.zip_cons_cons, List.zip_nil_right, List.enum]
  rw [List.enumFrom]
  simp only [List.enumFrom, List.flatMap_cons, List.flatMap_nil, List.append_nil]
  obtain ⟨i, hi⟩ := mem_enumFrom_of_mem t.frames 0 f hf
  intro hnil
  have : (⟨0, smoothedScore s i⟩ : FaceObs) ∈
      (t.frames.enumFrom 0).filterMap (fun q =>
        if q.2 = f then some ⟨0, smoothedScore s q.1⟩ else none) := by
    refine List.mem_filterMap.2 ⟨(i, f), hi, ?_⟩
    rw [if_pos rfl]
  rw [hnil] at this
  cases this

/-! The claim theorems. -/

/-- Claim C1: for every candidate list, the trailer plan keeps the summed (possibly trimmed) durations within the 55-second content budget, selects at most 6 moments, never selects a moment whose original duration is under 3 seconds, and never includes a moment longer than 18 seconds at its original length; an empty candidate list raises "No suitable moments found for trailer"; and on the candidates (0,2), (10,25), (40,65) the plan is exactly (10,25), (40,58) with total duration 33. -/
theorem C1_trailer_plan (clip_moments : List Moment) :
    (∀ sel total, create_trailer_plan clip_moments = .ok (sel, total) →
      sumDur sel ≤ 55 ∧ sel.length ≤ 6 ∧
      ∀ m' ∈ sel, ∃ m ∈ clip_moments, m.start = m'.start ∧ m'.«end» ≤ m.«end» ∧
        3 ≤ m.duration ∧ (18 < m.duration → m'.duration < m.duration)) ∧
    create_trailer_plan [] = .error "No suitable moments found for trailer" ∧
    create_trailer_plan [⟨0,2⟩, ⟨10,25⟩, ⟨40,65⟩] = .ok ([⟨10,25⟩, ⟨40,58⟩], 33) := by
  refine ⟨?_, ?_, ?_⟩
  · intro sel total h
    simp only [create_trailer_plan] at h
    split at h
    · cases h
    · simp only [Except.ok.injEq] at h
      have hsum := trailerSelect_sum (sortMomentsByStart clip_moments) [] 0 (by simp [sumDur]) (by norm_num)
      have htrace := trailerSelect_trace (sortMomentsByStart clip_moments) [] 0
      have hcount := trailerSelect_count (sortMomentsByStart clip_moments) [] 0 (by simp)
      rw [h] at hsum htrace hcount
      refine ⟨by rw [hsum.1]; exact hsum.2, hcount, ?_⟩
      intro m' hm'
      rcases htrace m' hm' with hfalse | ⟨m, hx, h1, h2, h3, _, _, h6⟩
      · exact absurd hfalse (List.not_mem_nil m')
      · exact ⟨m, (List.perm_insertionSort _ clip_moments).mem_iff.1 hx, h1, h2, h3, h6⟩
  · norm_num [create_trailer_plan, sortMomentsByStart, List.insertionSort, trailerSelect]
  · norm_num [create_trailer_plan, sortMomentsByStart, List.insertionSort,
      List.orderedInsert, trailerSelect, Moment.duration]

/-- Witness for C1 at the concrete end-to-end input. -/
theorem C1_trailer_plan_witness :
    sumDur [⟨10,25⟩, ⟨40,58⟩] ≤ 55 ∧ ([⟨10,25⟩, ⟨40,58⟩] : List Moment).length ≤ 6 := by
  have h := (C1_trailer_plan [⟨0,2⟩, ⟨10,25⟩, ⟨40,65⟩]).1 [⟨10,25⟩, ⟨40,58⟩] 33
    (C1_trailer_plan [⟨0,2⟩, ⟨10,25⟩, ⟨40,65⟩]).2.2
  exact ⟨h.1, h.2.1⟩

/-- Claim C9: every moment in a produced trailer plan has adjusted duration at least 3 and at most 18 seconds, including the final budget-trimmed moment. -/
theorem C9_plan_durations (clip_moments sel : List Moment) (total : ℚ)
    (h : create_trailer_plan clip_moments = .ok (sel, total)) :
    ∀ m' ∈ sel, 3 ≤ m'.duration ∧ m'.duration ≤ 18 := by
  intro m' hm'
  simp only [create_trailer_plan] at h
  split at h
  · cases h
  · simp only [Except.ok.injEq] at h
    have htrace := trailerSelect_trace (sortMomentsByStart clip_moments) [] 0
    rw [h] at htrace
    rcases htrace m' hm' with hfalse | ⟨m, _, _, _, _, h4, h5, _⟩
    · exact absurd hfalse (List.not_mem_nil m')
    · exact ⟨h4, h5⟩

/-- Witness for C9 at the concrete end-to-end input. -/
theorem C9_plan_durations_witness :
    3 ≤ (⟨40,58⟩ : Moment).duration ∧ (⟨40,58⟩ : Moment).duration ≤ 18 := by
  refine C9_plan_durations [⟨0,2⟩, ⟨10,25⟩, ⟨40,65⟩] [⟨10,25⟩, ⟨40,58⟩] 33 ?_ ⟨40,58⟩ (by simp)
  norm_num [create_trailer_plan, sortMomentsByStart, List.insertionSort,
    List.orderedInsert, trailerSelect, Moment.duration]

/-- Counterexample to claim C4: with two planned moments (0,10) and (20,30) and a face-tracking collaborator that fails on segment 1, `create_trailer` still produces a trailer from the surviving subset (segment 0 alone) - a partial trailer, contradicting the claim that any failure while processing a trailer segment is fatal to the whole run. -/
theorem C4_counterexample :
    (fun i (_ : Moment) => decide (i = 0)) 1 ⟨20,30⟩ = false ∧
    create_trailer_plan [⟨0,10⟩, ⟨20,30⟩] = .ok ([⟨0,10⟩, ⟨20,30⟩], 20) ∧
    create_trailer_result (fun i _ => decide (i = 0)) [⟨0,10⟩, ⟨20,30⟩] =
      .ok [⟨0,10,0,10⟩] := by
  refine ⟨by norm_num, ?_, ?_⟩
  · norm_num [create_trailer_plan, sortMomentsByStart, List.insertionSort,
      List.orderedInsert, trailerSelect, Moment.duration]
  · norm_num [create_trailer_result, create_trailer_plan, sortMomentsByStart,
      List.insertionSort, List.orderedInsert, trailerSelect, Moment.duration,
      collectProcessedClips, List.enum, List.enumFrom, List.filterMap]

/-- Claim C4 (amended): a failure while processing a trailer segment is caught and that segment skipped; the trailer is composed from the surviving processed segments, and only when no segment at all survives does the run fail with "No valid clips generated for trailer". -/
theorem C4_amended (segmentOk : Nat → Moment → Bool) (clip_moments sel : List Moment)
    (total : ℚ) (hplan : create_trailer_plan clip_moments = .ok (sel, total)) :
    (collectProcessedClips segmentOk sel = [] →
      create_trailer_result segmentOk clip_moments =
        .error "No valid clips generated for trailer") ∧
    (collectProcessedClips segmentOk sel ≠ [] →
      create_trailer_result segmentOk clip_moments =
        .ok (collectProcessedClips segmentOk sel)) := by
  unfold create_trailer_result
  rw [hplan]
  constructor
  · intro he
    simp [he]
  · intro he
    simp only []
    rw [if_neg (by simpa using he)]

/-- Witness for the amended C4 at the concrete counterexample input. -/
theorem C4_amended_witness :
    create_trailer_result (fun i _ => decide (i = 0)) [⟨0,10⟩, ⟨20,30⟩] =
      .ok (collectProcessedClips (fun i _ => decide (i = 0)) [⟨0,10⟩, ⟨20,30⟩]) := by
  refine (C4_amended (fun i _ => decide (i = 0)) [⟨0,10⟩, ⟨20,30⟩]
    [⟨0,10⟩, ⟨20,30⟩] 20 ?_).2 ?_
  · norm_num [create_trailer_plan, sortMomentsByStart, List.insertionSort,
      List.orderedInsert, trailerSelect, Moment.duration]
  · norm_num [collectProcessedClips, List.enum, List.enumFrom, List.filterMap]

/-- Claim C2: for `max_words` at least 1 (the code is invoked with 5 and 3), every output line is non-empty with at most `max_words` words, the concatenation of the word lists of the output lines reproduces the retained words in input order (so each retained word appears in exactly one line), and 6 retained words with `max_words = 5` produce exactly two lines of 5 words and 1 word. -/
theorem C2_subtitle_grouping (segs : List WordSeg) (clip_start clip_end : ℚ)
    (max_words : Nat) (hmw : 1 ≤ max_words) :
    (∀ line ∈ create_subtitles_with_ffmpeg segs clip_start clip_end max_words,
        line.words ≠ [] ∧ line.words.length ≤ max_words) ∧
    ((create_subtitles_with_ffmpeg segs clip_start clip_end max_words).map
        SubLine.words).flatten = retainedWords segs clip_start clip_end ∧
    create_subtitles_with_ffmpeg
      [⟨"Hi", some 0, some 1⟩, ⟨"there", some 1, some 2⟩, ⟨"how", some 2, some 3⟩,
       ⟨"are", some 3, some 4⟩, ⟨"you", some 4, some 5⟩, ⟨"doing", some 5, some 6⟩]
      0 10 5 =
    [⟨0, 5, ["Hi", "there", "how", "are", "you"]⟩, ⟨5, 6, ["doing"]⟩] := by
  refine ⟨?_, ?_, ?_⟩
  · intro line hline
    rw [create_subtitles_eq] at hline
    rcases List.mem_map.1 hline with ⟨g, hg, hrender⟩
    subst hrender
    rw [renderLine_words]
    constructor
    · simpa using chunks_ne_nil max_words _ g hg
    · rw [List.length_map]
      exact chunks_length_le max_words hmw _ g hg
  · rw [create_subtitles_eq, retainedWords]
    rw [List.map_map]
    have : (SubLine.words ∘ renderLine clip_start) = fun g : List Tok => g.map Tok.w := rfl
    rw [this, ← List.map_flatten, chunks_flatten]
  · norm_num +decide [create_subtitles_with_ffmpeg, clipSegments, segKeep, List.filter,
      groupLoop, startRel, endRel, max_def]

/-- Witness for C2 at the six-word end-to-end input. -/
theorem C2_subtitle_grouping_witness :
    ((create_subtitles_with_ffmpeg
      [⟨"Hi", some 0, some 1⟩, ⟨"there", some 1, some 2⟩, ⟨"how", some 2, some 3⟩,
       ⟨"are", some 3, some 4⟩, ⟨"you", some 4, some 5⟩, ⟨"doing", some 5, some 6⟩]
      0 10 5).map SubLine.words).flatten =
    retainedWords
      [⟨"Hi", some 0, some 1⟩, ⟨"there", some 1, some 2⟩, ⟨"how", some 2, some 3⟩,
       ⟨"are", some 3, some 4⟩, ⟨"you", some 4, some 5⟩, ⟨"doing", some 5, some 6⟩] 0 10 :=
  (C2_subtitle_grouping _ 0 10 5 (by norm_num)).2.1

/-- Claim C7: a word is retained by the window filter iff both timestamps are present, `end > clip_start` and `start < clip_end`; the clamped relative timings are nonnegative; a word whose clamped relative end is nonpositive is discarded by the grouping loop; and an empty filtered input yields an empty subtitle-line list. -/
theorem C7_word_filter (segs : List WordSeg) (clip_start clip_end : ℚ) :
    (∀ s, s ∈ clipSegments segs clip_start clip_end ↔
      s ∈ segs ∧ ∃ st en, s.start = some st ∧ s.«end» = some en ∧
        clip_start < en ∧ st < clip_end) ∧
    (∀ st, 0 ≤ startRel clip_start st) ∧
    (∀ en, 0 ≤ endRel clip_start en) ∧
    (∀ max_words (seg : WordSeg) rest cur subtitles st en,
        seg.start = some st → seg.«end» = some en → endRel clip_start en ≤ 0 →
        groupLoop clip_start max_words (seg :: rest) cur subtitles =
          groupLoop clip_start max_words rest cur subtitles) ∧
    (∀ max_words, clipSegments segs clip_start clip_end = [] →
        create_subtitles_with_ffmpeg segs clip_start clip_end max_words = []) := by
  refine ⟨?_, fun st => le_max_left _ _, fun en => le_max_left _ _, ?_, ?_⟩
  · intro s
    rw [clipSegments, List.mem_filter]
    constructor
    · rintro ⟨hmem, hkeep⟩
      refine ⟨hmem, ?_⟩
      unfold segKeep at hkeep
      split at hkeep
      · next st en heq1 heq2 =>
          simp only [Bool.and_eq_true, decide_eq_true_eq] at hkeep
          exact ⟨st, en, heq1, heq2, hkeep.1, hkeep.2⟩
      · next => simp at hkeep
    · rintro ⟨hmem, st, en, h1, h2, h3, h4⟩
      refine ⟨hmem, ?_⟩
      unfold segKeep
      rw [h1, h2]
      simp [h3, h4]
  · intro mw seg rest cur subtitles st en h1 h2 hle
    obtain ⟨w, os, oe⟩ := seg
    dsimp only at h1 h2
    subst h1; subst h2
    by_cases hw : py_strip w = ""
    · simp only [groupLoop]
      rw [if_pos hw]
    · simp only [groupLoop]
      rw [if_neg hw, if_pos hle]
  · intro mw h
    unfold create_subtitles_with_ffmpeg
    rw [h]
    rfl

/-- Witness for C7: the loop discards a concrete word ending before the clip starts. -/
theorem C7_word_filter_witness :
    groupLoop 0 5 [⟨"a", some (-5), some (-1)⟩] none [] = groupLoop 0 5 [] none [] :=
  (C7_word_filter [] 0 10).2.2.2.1 5 ⟨"a", some (-5), some (-1)⟩ [] none [] (-5) (-1)
    rfl rfl (by norm_num [endRel, max_def])

/-- Counterexample to claim C8: the code never defensively sorts, so on the unsorted input (word "a" at 0-6, word "b" at 0-1) with `max_words = 1` the output lines (0,6) and (0,1) are neither chronologically ordered nor non-overlapping. -/
theorem C8_counterexample :
    ¬ linesOrderedDisjoint
        (create_subtitles_with_ffmpeg
          [⟨"a", some 0, some 6⟩, ⟨"b", some 0, some 1⟩] 0 10 1) := by
  have heval : create_subtitles_with_ffmpeg
      [⟨"a", some 0, some 6⟩, ⟨"b", some 0, some 1⟩] 0 10 1 =
      [⟨0, 6, ["a"]⟩, ⟨0, 1, ["b"]⟩] := by
    norm_num +decide [create_subtitles_with_ffmpeg, clipSegments, segKeep, List.filter,
      groupLoop, startRel, endRel, max_def]
  rw [heval, linesOrderedDisjoint]
  intro h
  rcases List.pairwise_cons.1 h with ⟨hrel, -⟩
  have := hrel _ (List.mem_cons_self _ _)
  norm_num at this

/-- Claim C8 (amended): when the retained words are chronologically ordered and non-overlapping (each word ends no later than the next begins, and starts no later than it ends), the output lines are chronologically ordered and pairwise non-overlapping.  The code does not sort, so this fails for unsorted input (see the counterexample). -/
theorem C8_amended (segs : List WordSeg) (clip_start clip_end : ℚ) (max_words : Nat)
    (hsorted : List.Chain' (fun a b : Tok => a.en ≤ b.st)
      (retainedToks segs clip_start clip_end))
    (hwf : ∀ t ∈ retainedToks segs clip_start clip_end, t.st ≤ t.en) :
    linesOrderedDisjoint
      (create_subtitles_with_ffmpeg segs clip_start clip_end max_words) := by
  rw [create_subtitles_eq]
  have hne : ∀ g ∈ chunks max_words (retainedToks segs clip_start clip_end), g ≠ [] :=
    chunks_ne_nil max_words _
  have hnm : [] ∉ chunks max_words (retainedToks segs clip_start clip_end) :=
    fun h => hne [] h rfl
  have hflat := chunks_flatten max_words (retainedToks segs clip_start clip_end)
  have hchain : List.Chain' (fun a b : Tok => a.en ≤ b.st)
      (chunks max_words (retainedToks segs clip_start clip_end)).flatten := by
    rw [hflat]; exact hsorted
  rw [List.chain'_flatten hnm] at hchain
  obtain ⟨hwithin, hacross⟩ := hchain
  have hmem : ∀ g ∈ chunks max_words (retainedToks segs clip_start clip_end),
      ∀ t ∈ g, t ∈ retainedToks segs clip_start clip_end := by
    intro g hg t ht
    rw [← hflat]
    exact List.mem_flatten.2 ⟨g, hg, ht⟩
  have hintra : ∀ l ∈ (chunks max_words (retainedToks segs clip_start clip_end)).map
      (renderLine clip_start), l.start ≤ l.«end» := by
    intro l hl
    rcases List.mem_map.1 hl with ⟨g, hg, rfl⟩
    have h1 : headSt g ≤ lastEn g :=
      headSt_le_lastEn g (hne g hg) (hwithin g hg) (fun t ht => hwf t (hmem g hg t ht))
    show startRel clip_start (headSt g) ≤ endRel clip_start (lastEn g)
    rw [startRel, endRel]
    exact max_le_max (le_refl 0) (by linarith)
  exact chain_pairwise_lines _ hintra (chain_across_render clip_start _ hne hacross)

/-- Witness for the amended C8 on a sorted two-word input. -/
theorem C8_amended_witness :
    linesOrderedDisjoint
      (create_subtitles_with_ffmpeg
        [⟨"a", some 0, some 1⟩, ⟨"b", some 2, some 3⟩] 0 10 1) := by
  refine C8_amended [⟨"a", some 0, some 1⟩, ⟨"b", some 2, some 3⟩] 0 10 1 ?_ ?_
  · have : retainedToks [⟨"a", some 0, some 1⟩, ⟨"b", some 2, some 3⟩] 0 10 =
        [⟨"a", 0, 1⟩, ⟨"b", 2, 3⟩] := by
      norm_num +decide [retainedToks, toks, segTok, clipSegments, segKeep, List.filter,
        List.filterMap, endRel, max_def]
    rw [this]
    refine List.chain'_cons.2 ⟨by norm_num, ?_⟩
    simp
  · intro t ht
    have : retainedToks [⟨"a", some 0, some 1⟩, ⟨"b", some 2, some 3⟩] 0 10 =
        [⟨"a", 0, 1⟩, ⟨"b", 2, 3⟩] := by
      norm_num +decide [retainedToks, toks, segTok, clipSegments, segKeep, List.filter,
        List.filterMap, endRel, max_def]
    rw [this] at ht
    rcases List.mem_cons.1 ht with rfl | ht'
    · norm_num
    · rcases List.mem_cons.1 ht' with rfl | ht''
      · norm_num
      · simp at ht''

/-- Claim C10: the grouping output is exactly the greedy chunking of the retained words rendered so that the start time of each line is the clamped relative start of its first word and its end time the clamped relative end of its last word. -/
theorem C10_line_boundaries (segs : List WordSeg) (clip_start clip_end : ℚ)
    (max_words : Nat) :
    create_subtitles_with_ffmpeg segs clip_start clip_end max_words =
      (chunks max_words (retainedToks segs clip_start clip_end)).map
        (fun g => ⟨startRel clip_start (headSt g), endRel clip_start (lastEn g),
          g.map Tok.w⟩) ∧
    (chunks max_words (retainedToks segs clip_start clip_end)).flatten =
      retainedToks segs clip_start clip_end ∧
    ∀ g ∈ chunks max_words (retainedToks segs clip_start clip_end), g ≠ [] :=
  ⟨create_subtitles_eq segs clip_start clip_end max_words,
    chunks_flatten max_words _, chunks_ne_nil max_words _⟩

/-- Witness for C10 at a concrete one-word input. -/
theorem C10_line_boundaries_witness :
    ([⟨"a", (1 : ℚ), (2 : ℚ)⟩] : List Tok) ≠ [] := by
  refine (C10_line_boundaries [⟨"a", some 1, some 2⟩] 0 10 5).2.2 [⟨"a", 1, 2⟩] ?_
  have : retainedToks [⟨"a", some 1, some 2⟩] 0 10 = [⟨"a", 1, 2⟩] := by
    norm_num +decide [retainedToks, toks, segTok, clipSegments, segKeep, List.filter,
      List.filterMap, endRel, max_def]
  rw [this]
  simp [chunks, chunksWith]

/-- Counterexample to claim C3: a single track present in every frame with monotonically increasing (but negative) score is NOT selected - the smoothed score -1 is negative, so the decision is Resize with no face, contradicting the claim that this track is selected in every frame. -/
theorem C3_counterexample :
    List.Chain' (fun a b : ℚ => a ≤ b) [(-1 : ℚ)] ∧
    (0 : Nat) ∈ Track.frames ⟨[0]⟩ ∧
    frameDecision [⟨[0]⟩] [[(-1 : ℚ)]] 0 = (Mode.resize, none) := by
  refine ⟨by simp, by simp, ?_⟩
  have hface : facesAt [⟨[0]⟩] [[(-1 : ℚ)]] 0 = [⟨0, -1⟩] := by
    rw [facesAt]
    simp only [List.zip_cons_cons, List.zip_nil_right, List.enum]
    rw [List.enumFrom]
    simp only [List.enumFrom, List.flatMap_cons, List.flatMap_nil, List.append_nil]
    norm_num [List.filterMap, smoothedScore]
  rw [frameDecision, hface]
  norm_num [bestFace, frameDecision]

/-- Claim C3 (amended): smoothing follows the stated windowed mean with an empty slice giving 0; the per-frame pick is the maximal-score observation with the first encountered winning ties; a negative best score yields no face, and the mode is Crop exactly when a face is present; with no tracks every frame decision is Resize with no face; and a single track present in a frame whose scores are monotonically increasing AND nonnegative is selected there (nonnegativity is required - see the counterexample). -/
theorem C3_amended :
    (∀ (s : List ℚ) (fidx : Nat), s.length ≤ fidx - 30 → smoothedScore s fidx = 0) ∧
    (∀ obs (b : FaceObs), bestFace obs = some b →
      b ∈ obs ∧ (∀ o ∈ obs, o.score ≤ b.score) ∧
      ∃ pre post, obs = pre ++ b :: post ∧ ∀ o ∈ pre, o.score < b.score) ∧
    (∀ tracks scores f, (frameDecision tracks scores f).1 = Mode.crop ↔
      ((frameDecision tracks scores f).2).isSome) ∧
    (∀ tracks scores f b, bestFace (facesAt tracks scores f) = some b → b.score < 0 →
      frameDecision tracks scores f = (Mode.resize, none)) ∧
    (∀ scores f, frameDecision [] scores f = (Mode.resize, none)) ∧
    (∀ (t : Track) (s : List ℚ) (f : Nat),
      List.Chain' (fun a b : ℚ => a ≤ b) s → (∀ q ∈ s, 0 ≤ q) → f ∈ t.frames →
      (frameDecision [t] [s] f).1 = Mode.crop ∧
      ((frameDecision [t] [s] f).2).map FaceObs.track = some 0) := by
  refine ⟨smoothedScore_empty, bestFace_spec, ?_, ?_, ?_, ?_⟩
  · intro tracks scores f
    rw [frameDecision]
    cases hb : bestFace (facesAt tracks scores f) with
    | none => simp
    | some b =>
      by_cases hneg : b.score < 0
      · simp [hneg]
      · simp [hneg]
  · intro tracks scores f b hb hneg
    rw [frameDecision, hb]
    simp [hneg]
  · intro scores f
    rw [frameDecision]
    have : facesAt [] scores f = [] := by
      rw [facesAt]
      simp
    rw [this]
    simp [bestFace]
  · intro t s f _ hpos hf
    cases hb : bestFace (facesAt [t] [s] f) with
    | none =>
      exfalso
      have := facesAt_single_ne_nil t s f hf
      rcases hne : facesAt [t] [s] f with _ | ⟨x, xs⟩
      · exact this hne
      · rw [hne, bestFace] at hb
        cases hb
    | some b =>
      have hmem := (bestFace_spec _ b hb).1
      obtain ⟨htr, i, hsc⟩ := facesAt_single t s f b hmem
      have hnn : 0 ≤ b.score := by rw [hsc]; exact smoothedScore_nonneg s hpos i
      have hneg : ¬ b.score < 0 := not_lt.2 hnn
      rw [frameDecision, hb]
      simp [hneg, htr]

/-- Witness for the amended C3 on a concrete single-track input. -/
theorem C3_amended_witness :
    (frameDecision [⟨[0]⟩] [[(1 : ℚ)]] 0).1 = Mode.crop ∧
    ((frameDecision [⟨[0]⟩] [[(1 : ℚ)]] 0).2).map FaceObs.track = some 0 :=
  C3_amended.2.2.2.2.2 ⟨[0]⟩ [(1 : ℚ)] 0 (by simp) (by norm_num) (by simp)

/-- Claim C5: the orchestrator strips code-fence wrapping before parsing; an unparseable response or one that is not a JSON list degrades to an empty candidate list instead of aborting at the parse step; the "No suitable moments found in video" failure arises only downstream, from the empty list. -/
theorem C5_llm_parse :
    (∀ jsonLoads raw, jsonLoads (clean_llm_response raw) = none →
        parse_moments jsonLoads raw = []) ∧
    (∀ jsonLoads raw j, jsonLoads (clean_llm_response raw) = some j →
        (∀ l, j ≠ Json.arr l) → parse_moments jsonLoads raw = []) ∧
    (∀ jsonLoads raw l, jsonLoads (clean_llm_response raw) = some (Json.arr l) →
        parse_moments jsonLoads raw = l) ∧
    clean_llm_response "```json\n[1, 2]\n```" = "[1, 2]" ∧
    (∀ clipOk, clip_mode_outcome [] clipOk = .error "No suitable moments found in video") := by
  refine ⟨?_, ?_, ?_, by decide, ?_⟩
  · intro jsonLoads raw h
    rw [parse_moments, h]
  · intro jsonLoads raw j h hne
    rw [parse_moments, h]
    cases j with
    | arr l => exact absurd rfl (hne l)
    | null => rfl
    | bool b => rfl
    | num q => rfl
    | str s => rfl
    | obj kvs => rfl
  · intro jsonLoads raw l h
    rw [parse_moments, h]
  · intro clipOk
    rfl

/-- Witness for C5: a fenced response parses to its list contents. -/
theorem C5_llm_parse_witness :
    parse_moments (fun s => if s = "[1]" then some (Json.arr [Json.num 1]) else none)
      "```json\n[1]\n```" = [Json.num 1] := by
  refine C5_llm_parse.2.2.1 _ "```json\n[1]\n```" [Json.num 1] ?_
  have : clean_llm_response "```json\n[1]\n```" = "[1]" := by decide
  rw [this]
  simp

/-- Claim C6: every run that enters processing emits exactly one terminal webhook call - status "success" with no message on the success path, status "error" with the failure message on every exception path; with zero candidate moments in clip mode the single call carries "No suitable moments found in video". -/
theorem C6_webhook_once (inp : RunInputs) :
    (run_webhooks inp).length = 1 ∧
    (∀ e, process_body inp = .error e → run_webhooks inp = [⟨"error", some e⟩]) ∧
    (process_body inp = .ok () → run_webhooks inp = [⟨"success", none⟩]) ∧
    (inp.generate_trailer = false →
      parse_moments inp.jsonLoads inp.llm_response = [] →
      run_webhooks inp = [⟨"error", some "No suitable moments found in video"⟩]) := by
  refine ⟨?_, ?_, ?_, ?_⟩
  · rw [run_webhooks]
    cases process_body inp with
    | ok u => rfl
    | error m => rfl
  · intro e he
    rw [run_webhooks, he]
  · intro h
    rw [run_webhooks, h]
  · intro hmode hparse
    have hbody : process_body inp = .error "No suitable moments found in video" := by
      rw [process_body, hmode]
      simp only [Bool.false_eq_true, if_false, hparse]
      rfl
    rw [run_webhooks, hbody]

/-- Witness for C6 at the zero-moments clip-mode input. -/
theorem C6_webhook_once_witness :
    run_webhooks ⟨false, "[]", "x", fun _ => none, fun _ _ => true, fun _ _ => true⟩ =
      [⟨"error", some "No suitable moments found in video"⟩] :=
  (C6_webhook_once _).2.2.2 rfl rfl

end ClipstreamAI
